import Mathlib

/-!
# SAXPY benchmark harness (`saxpy.hpp`, `saxpy-cl.cpp`, `saxpy-hc.cpp`)

A shallow embedding of the measurement harness:

* buffers (`float*` of `N` elements) are lists; an access outside the buffer
  makes the operation return `none`;
* the element type is a type parameter `α` carrying its own `+`, `-`, `*`, `<`;
  `fabs` and the literal `0.0001f` are passed in as `fabs` and `tol`;
* `int` values are integers, and every store into an `int` goes through an
  explicit 32-bit conversion. Signed overflow and an out-of-range conversion
  `double → int` are undefined in C++; the conversions below fix the outcome of
  x86-64, and `summarize_errors_stores` lists the exact values so that a
  statement can say whether any of them leaves the range;
* the `double` timings are elements of a field `K` (exact arithmetic), where
  division by zero yields zero: statements about quotients by
  `results.size()` are made for non-empty lists;
* durations read from the clock and the data drawn from the random generator
  are inputs of the model.
-/

set_option autoImplicit false

namespace Saxpy

/-! ## Machine integers -/

/-- Smallest value of a 32-bit `int`. -/
def INT_MIN : Int := -2147483648

/-- Largest value of a 32-bit `int`. -/
def INT_MAX : Int := 2147483647

/-- Membership in the range of a 32-bit `int`. -/
def inInt (v : Int) : Bool := decide (INT_MIN ≤ v) && decide (v ≤ INT_MAX)

/-- Two's-complement reduction of an integer to a 32-bit `int`: the result of
`int` arithmetic and of the conversion `size_t → int`. -/
def wrapInt (v : Int) : Int := (v + 2147483648) % 4294967296 - 2147483648

/-- Conversion `double → int` of an integral value: the value itself when it
fits, and the x86-64 "integer indefinite" result `INT_MIN` when it does not. -/
def doubleToInt (v : Int) : Int := if inInt v then v else INT_MIN

/-- The usual arithmetic conversion `int → size_t` (64 bits). -/
def toSizeT (v : Int) : Int := v % 18446744073709551616

/-! ## `SAXPYBase` -/

section Base

variable {α : Type}

/-- The data members of `SAXPYBase` (`saxpy.hpp:64-68`). -/
structure SAXPYBase (α : Type) where
  a : α
  x : List α
  y : List α
  y_gpu : List α
  N : Nat

/-- The loop `for (int i = 0; i < N; i++) y[i] += a * x[i];` of
`compute_in_cpu`, entered at index `i` with `rem` iterations left. -/
def compute_in_cpu_loop [Add α] [Mul α] (a : α) (x : List α) :
    Nat → Nat → List α → Option (List α)
  | 0, _, y => some y
  | rem + 1, i, y =>
    match x[i]?, y[i]? with
    | some xi, some yi => compute_in_cpu_loop a x rem (i + 1) (y.set i (yi + a * xi))
    | _, _ => none

/-- Embeds `SAXPYBase::compute_in_cpu` (`saxpy.hpp:98-106`), timing aside. -/
def compute_in_cpu [Add α] [Mul α] (s : SAXPYBase α) : Option (SAXPYBase α) :=
  match compute_in_cpu_loop s.a s.x s.N 0 s.y with
  | some y => some { s with y := y }
  | none => none

/-- The test `fabs(y[i] - y_gpu[i]) > fabs(y[i] * 0.0001f)` of `verify`. -/
def mismatch [Sub α] [Mul α] [LT α] [DecidableRel (fun (p q : α) => p < q)]
    (fabs : α → α) (tol : α) (yi gi : α) : Bool :=
  decide (fabs (yi * tol) < fabs (yi - gi))

/-- The loop of `verify` (`saxpy.hpp:119-122`), entered at index `i` with
`rem` iterations left and the counter at `errors`. -/
def verify_loop [Sub α] [Mul α] [LT α] [DecidableRel (fun (p q : α) => p < q)]
    (fabs : α → α) (tol : α) (y y_gpu : List α) :
    Nat → Nat → Int → Option Int
  | 0, _, errors => some errors
  | rem + 1, i, errors =>
    match y[i]?, y_gpu[i]? with
    | some yi, some gi =>
      verify_loop fabs tol y y_gpu rem (i + 1)
        (if mismatch fabs tol yi gi then wrapInt (errors + 1) else errors)
    | _, _ => none

/-- Embeds `SAXPYBase::verify` (`saxpy.hpp:116-126`): the error count. -/
def verify [Sub α] [Mul α] [LT α] [DecidableRel (fun (p q : α) => p < q)]
    (fabs : α → α) (tol : α) (s : SAXPYBase α) : Option Int :=
  verify_loop fabs tol s.y s.y_gpu s.N 0 0

/-- The mismatch test at index `i` of two buffers (false outside them). -/
def mismatchAt [Sub α] [Mul α] [LT α] [DecidableRel (fun (p q : α) => p < q)]
    (fabs : α → α) (tol : α) (y y_gpu : List α) (i : Nat) : Bool :=
  match y[i]?, y_gpu[i]? with
  | some yi, some gi => mismatch fabs tol yi gi
  | _, _ => false

/-- Embeds `struct Result` (`saxpy.hpp:9-14`); the `double` timings live in `K`. -/
structure Result (K : Type) where
  init_time : K
  cpu_time : K
  gpu_time : K
  verify_time : K
  errors : Int

/-- Embeds `std::copy_n(src, n, dst)` where `dst` is a buffer of exactly `n` elements
just obtained from `_alloc`: every element of `dst` is overwritten, so the
outcome is the first `n` elements of `src`. -/
def copy_n (src : List α) (n : Nat) : Option (List α) :=
  if n ≤ src.length then some (src.take n) else none

/-- Embeds `SAXPYBase::init` (`saxpy.hpp:78-96`) on an object constructed with `a` and
`N`; `tmp0` and `tmp1` are the two buffers filled by the random generator. -/
def init (a : α) (N : Nat) (tmp0 tmp1 : List α) : Option (SAXPYBase α) :=
  match copy_n tmp0 N, copy_n tmp1 N, copy_n tmp1 N with
  | some x, some y, some y_gpu => some { a := a, x := x, y := y, y_gpu := y_gpu, N := N }
  | _, _, _ => none

/-- Embeds `SAXPYBase::compute_in_gpu` (`saxpy.hpp:108-114`): a call of the virtual
`_compute_in_gpu` of the strategy. -/
def compute_in_gpu (_compute_in_gpu : SAXPYBase α → Option (SAXPYBase α))
    (s : SAXPYBase α) : Option (SAXPYBase α) :=
  _compute_in_gpu s

/-- Embeds `run<T>(a, N)` (`saxpy.hpp:141-155`). The strategy `T` enters through its
`_compute_in_gpu`; the four durations are the readings of the clock. -/
def run {K : Type} [Add α] [Sub α] [Mul α] [LT α] [DecidableRel (fun (p q : α) => p < q)]
    (fabs : α → α) (tol : α) (_compute_in_gpu : SAXPYBase α → Option (SAXPYBase α))
    (init_time cpu_time gpu_time verify_time : K)
    (a : α) (N : Nat) (tmp0 tmp1 : List α) : Option (Result K) :=
  match init a N tmp0 tmp1 with
  | none => none
  | some instance0 =>
    match compute_in_cpu instance0 with
    | none => none
    | some instance1 =>
      match compute_in_gpu _compute_in_gpu instance1 with
      | none => none
      | some instance2 =>
        match verify fabs tol instance2 with
        | none => none
        | some errors =>
          some { init_time := init_time, cpu_time := cpu_time, gpu_time := gpu_time,
                 verify_time := verify_time, errors := errors }

/-- Embeds `hc::parallel_for_each(hc::extent<1>(N), body)`: the work-items
`i, i + 1, ...` (`rem` of them) applied one after the other. -/
def parallel_for_each (body : Nat → List α → Option (List α)) :
    Nat → Nat → List α → Option (List α)
  | 0, _, av_y => some av_y
  | rem + 1, i, av_y =>
    match body i av_y with
    | some av_y1 => parallel_for_each body rem (i + 1) av_y1
    | none => none

/-- The work-item `av_y[i] += a * av_x[i]` of `SAXPY_HC` (`saxpy-hc.cpp:21-23`). -/
def SAXPY_HC_item [Add α] [Mul α] (a : α) (av_x : List α) (i : Nat) (av_y : List α) :
    Option (List α) :=
  match av_x[i]?, av_y[i]? with
  | some xi, some yi => some (av_y.set i (yi + a * xi))
  | _, _ => none

/-- Embeds `SAXPY_HC::_compute_in_gpu` (`saxpy-hc.cpp:17-24`). -/
def SAXPY_HC_compute_in_gpu [Add α] [Mul α] (s : SAXPYBase α) : Option (SAXPYBase α) :=
  match parallel_for_each (SAXPY_HC_item s.a s.x) s.N 0 s.y_gpu with
  | some av_y => some { s with y_gpu := av_y }
  | none => none

/-- The assumption on a strategy's GPU step: started on buffers of `N`
elements it returns, leaves `a`, `N`, `x` and `y` as they were, and replaces
each `y_gpu[i]`, `i < N`, by `y_gpu[i] + a * x[i]`. -/
def GpuStepIsSaxpy [Add α] [Mul α] (gpu : SAXPYBase α → Option (SAXPYBase α)) : Prop :=
  ∀ s : SAXPYBase α, s.x.length = s.N → s.y_gpu.length = s.N →
    ∃ s1, gpu s = some s1 ∧ s1.a = s.a ∧ s1.N = s.N ∧ s1.x = s.x ∧ s1.y = s.y ∧
      s1.y_gpu.length = s.N ∧
      ∀ i xi gi, i < s.N → s.x[i]? = some xi → s.y_gpu[i]? = some gi →
        s1.y_gpu[i]? = some (gi + s.a * xi)

end Base

/-! ## `Result::summarize` and `Result::dump` -/

section Summary

variable {K : Type} [Field K]

/-- The value-initialised `Result avg {}` / `Result var {}`. -/
def Result.zero : Result K :=
  { init_time := 0, cpu_time := 0, gpu_time := 0, verify_time := 0, errors := 0 }

/-- The exact value of `avg.errors + r.errors` (line 23), before it is stored. -/
def avg_errors_sum (avg r : Result K) : Int := avg.errors + r.errors

/-- The body of the first loop of `summarize` (`saxpy.hpp:19-23`). -/
def avg_step (avg r : Result K) : Result K :=
  { init_time := avg.init_time + r.init_time
    cpu_time := avg.cpu_time + r.cpu_time
    gpu_time := avg.gpu_time + r.gpu_time
    verify_time := avg.verify_time + r.verify_time
    errors := wrapInt (avg_errors_sum avg r) }

/-- The exact value of `errors / results.size()` (lines 29 and 43): the `int`
is converted to `size_t` and the division is the unsigned one. For `size = 0`,
where C++ leaves the division undefined, the value here is `0`. -/
def errors_quot (errors : Int) (size : Nat) : Int := toSizeT errors / (size : Int)

/-- The five statements `field /= results.size()` (`saxpy.hpp:25-29`, `39-43`). -/
def div_size (acc : Result K) (size : Nat) : Result K :=
  { init_time := acc.init_time / (size : K)
    cpu_time := acc.cpu_time / (size : K)
    gpu_time := acc.gpu_time / (size : K)
    verify_time := acc.verify_time / (size : K)
    errors := wrapInt (errors_quot acc.errors size) }

/-- The exact value of `var.errors + std::pow(r.errors - avg.errors, 2)`
(line 37) before its conversion to `int`. The program holds it as a `double`,
which is this value whenever it is below `2^53`, and otherwise a rounding of it
that is as far out of the `int` range as the value itself. -/
def var_errors_sum (avg var r : Result K) : Int :=
  var.errors + (wrapInt (r.errors - avg.errors)) ^ 2

/-- The body of the second loop of `summarize` (`saxpy.hpp:33-37`). -/
def var_step (avg var r : Result K) : Result K :=
  { init_time := var.init_time + (r.init_time - avg.init_time) ^ 2
    cpu_time := var.cpu_time + (r.cpu_time - avg.cpu_time) ^ 2
    gpu_time := var.gpu_time + (r.gpu_time - avg.gpu_time) ^ 2
    verify_time := var.verify_time + (r.verify_time - avg.verify_time) ^ 2
    errors := doubleToInt (var_errors_sum avg var r) }

/-- Embeds `Result::summarize` (`saxpy.hpp:16-45`). -/
def Result.summarize (results : List (Result K)) : Result K × Result K :=
  let avg := results.foldl avg_step Result.zero
  let avg := div_size avg results.length
  let var := results.foldl (var_step avg) Result.zero
  let var := div_size var results.length
  (avg, var)

/-- The exact values computed for an `int` field along a loop `for (auto r :
results)` with body `step`, where `exact acc r` is the value that the body
converts and stores. -/
def loop_stores (step : Result K → Result K → Result K) (exact : Result K → Result K → Int) :
    List (Result K) → Result K → List Int
  | [], _ => []
  | r :: rest, acc => exact acc r :: loop_stores step exact rest (step acc r)

/-- Every value that `summarize` computes for `avg.errors` and for
`var.errors`, in program order and before the conversion to `int`: the partial
sums of line 23, the quotient of line 29, the partial sums of line 37 and the
quotient of line 43. -/
def summarize_errors_stores (results : List (Result K)) : List Int :=
  let avg0 := results.foldl avg_step Result.zero
  let avg := div_size avg0 results.length
  let var0 := results.foldl (var_step avg) Result.zero
  loop_stores avg_step avg_errors_sum results Result.zero
    ++ [errors_quot avg0.errors results.length]
    ++ loop_stores (var_step avg) (var_errors_sum avg) results Result.zero
    ++ [errors_quot var0.errors results.length]

/-- What `Result::dump` writes: the name, the eight timing figures, and the
`errors:` figure when it is written at all. -/
structure DumpLine (K : Type) where
  name : String
  cpu : K × K
  init : K × K
  gpu : K × K
  verify : K × K
  errors : Option Int

/-- Embeds `Result::dump` (`saxpy.hpp:47-59`), number formatting aside. -/
def Result.dump (name : String) (results : List (Result K)) : DumpLine K :=
  let (avg, var) := Result.summarize results
  { name := name
    cpu := (avg.cpu_time, var.cpu_time)
    init := (avg.init_time, var.init_time)
    gpu := (avg.gpu_time, var.gpu_time)
    verify := (avg.verify_time, var.verify_time)
    errors := if avg.errors ≠ 0 ∨ var.errors ≠ 0 then some avg.errors else none }

/-- Specification side: the arithmetic mean of a list, its sum divided by its
length. -/
def specMean (xs : List K) : K := xs.sum / (xs.length : K)

/-- Specification side: the variance of a list, the sum of the squared
deviations from the mean divided by the length. -/
def specVariance (xs : List K) : K :=
  (xs.map (fun v => (v - specMean xs) ^ 2)).sum / (xs.length : K)

/-- A `Result` with the given error count and zero timings. -/
def Result.ofErrors (errors : Int) : Result K :=
  { init_time := 0, cpu_time := 0, gpu_time := 0, verify_time := 0, errors := errors }

end Summary

/-! ## The drivers (`main` of `saxpy-cl.cpp` and of `saxpy-hc.cpp`) -/

section Drivers

variable {K : Type}

/-- The four strategy classes of `saxpy-cl.cpp`. -/
inductive Strategy where
  | HOST_PTR
  | SVM
  | SVM_FINE_GRAINED
  | SVM_SYSTEM
  deriving DecidableEq, Repr

/-- The names under which `main` registers the strategies. -/
def Strategy.label : Strategy → String
  | .HOST_PTR => "HOST_PTR          "
  | .SVM => "SVM Coarse-grained"
  | .SVM_FINE_GRAINED => "SVM Fine-grained  "
  | .SVM_SYSTEM => "SVM System        "

/-- The vector `functions` built at `saxpy-cl.cpp:114-123`. The capability bits
`CL_DEVICE_SVM_COARSE_GRAIN_BUFFER`, `CL_DEVICE_SVM_FINE_GRAIN_BUFFER` and
`CL_DEVICE_SVM_FINE_GRAIN_SYSTEM` come from the OpenCL headers and are the
parameters `coarse`, `fine`, `system`. -/
def select_functions (coarse fine system cap : Nat) : List Strategy :=
  let functions : List Strategy := []
  let functions := functions ++ [Strategy.HOST_PTR]
  let functions := if cap &&& coarse ≠ 0 then functions ++ [Strategy.SVM] else functions
  let functions :=
    if cap &&& fine ≠ 0 then functions ++ [Strategy.SVM_FINE_GRAINED] else functions
  let functions :=
    if cap &&& system ≠ 0 then functions ++ [Strategy.SVM_SYSTEM] else functions
  functions

/-- The state of the trial loops: the vector `results`, and the log of the
strategies whose `run` has been called so far, in call order. -/
structure Trials (K : Type) where
  results : List (List (Result K))
  calls : List Strategy

/-- The inner loop `for (auto i = 0u; i < functions.size(); ++i)` of
`saxpy-cl.cpp:127-129`, entered at index `i` with `rem` iterations left.
`call f k` is the `Result` of running strategy `f` when `k` runs came before. -/
def inner_loop (call : Strategy → Nat → Result K) (functions : List Strategy) :
    Nat → Nat → Trials K → Option (Trials K)
  | 0, _, st => some st
  | rem + 1, i, st =>
    match functions[i]?, st.results[i]? with
    | some f, some rs =>
      inner_loop call functions rem (i + 1)
        { results := st.results.set i (rs ++ [call f st.calls.length])
          calls := st.calls ++ [f] }
    | _, _ => none

/-- The outer loop `for (auto tries = 0; tries < 3; ++tries)` of
`saxpy-cl.cpp:126-130`, with `rem` trials left. -/
def trial_loop (call : Strategy → Nat → Result K) (functions : List Strategy) :
    Nat → Trials K → Option (Trials K)
  | 0, st => some st
  | rem + 1, st =>
    match inner_loop call functions functions.length 0 st with
    | some st1 => trial_loop call functions rem st1
    | none => none

/-- Lines 114-130 of `saxpy-cl.cpp`: selection, `results.resize`, trial loops. -/
def main_cl_trials (coarse fine system cap : Nat) (call : Strategy → Nat → Result K) :
    Option (Trials K) :=
  let functions := select_functions coarse fine system cap
  trial_loop call functions 3
    { results := List.replicate functions.length [], calls := [] }

/-- The arguments of the calls `Result::dump(name, results[i])` made by the
final loop of `saxpy-cl.cpp:131-133`, entered at index `i`. -/
def dump_loop_args (functions : List Strategy) (results : List (List (Result K))) :
    Nat → Nat → Option (List (String × List (Result K)))
  | 0, _ => some []
  | rem + 1, i =>
    match functions[i]?, results[i]? with
    | some f, some rs =>
      match dump_loop_args functions results rem (i + 1) with
      | some rest => some ((f.label, rs) :: rest)
      | none => none
    | _, _ => none

/-- The whole of `main` of `saxpy-cl.cpp` after the program build: the
arguments with which `Result::dump` (hence `Result::summarize`) is called. -/
def main_cl_dump_args (coarse fine system cap : Nat) (call : Strategy → Nat → Result K) :
    Option (List (String × List (Result K))) :=
  let functions := select_functions coarse fine system cap
  match main_cl_trials coarse fine system cap call with
  | some st => dump_loop_args functions st.results functions.length 0
  | none => none

/-- The loop of `saxpy-hc.cpp:32-34` with `rem` trials left; `f k` is the
`Result` of the call `f()` made when `k` calls came before. -/
def main_hc_loop (f : Nat → Result K) : Nat → List (Result K) → List (Result K)
  | 0, results => results
  | rem + 1, results => main_hc_loop f rem (results ++ [f results.length])

/-- The argument of the call `Result::dump("HCC", results)` of `saxpy-hc.cpp:35`. -/
def main_hc_dump_args (f : Nat → Result K) : String × List (Result K) :=
  ("HCC", main_hc_loop f 3 [])

end Drivers

/-! ## Mapping state of the coarse-grained SVM strategy -/

section Svm

/-- The three buffers of `SAXPYBase`. -/
inductive Buf where
  | x
  | y
  | y_gpu
  deriving DecidableEq, Repr

/-- What a run of `SAXPY_OCL_SVM` does to its buffers. -/
inductive Event where
  | svmAlloc (b : Buf)
  | hostAlloc (b : Buf)
  | mapSVM (b : Buf)
  | unmapSVM (b : Buf)
  | kernel
  | hostRead (b : Buf) (i : Nat)
  | hostWrite (b : Buf) (i : Nat)
  deriving DecidableEq, Repr

/-- Embeds `SAXPY_OCL_SVM::_alloc` (`saxpy-cl.cpp:49-55`). -/
def SVM_alloc_events : List Event :=
  [Event.svmAlloc Buf.x, Event.hostAlloc Buf.y, Event.svmAlloc Buf.y_gpu,
   Event.mapSVM Buf.x, Event.mapSVM Buf.y_gpu]

/-- Embeds `std::copy_n(tmp, N, b)`: the writes to `b[i]`, `b[i + 1]`, ... -/
def copy_n_events (b : Buf) : Nat → Nat → List Event
  | 0, _ => []
  | rem + 1, i => Event.hostWrite b i :: copy_n_events b rem (i + 1)

/-- Embeds `SAXPYBase::init` for `SAXPY_OCL_SVM` (`saxpy.hpp:86-90`); `_free` finds
the three pointers null in a fresh object and does nothing. -/
def SVM_init_events (N : Nat) : List Event :=
  SVM_alloc_events ++ copy_n_events Buf.x N 0 ++ copy_n_events Buf.y N 0
    ++ copy_n_events Buf.y_gpu N 0

/-- The loop of `compute_in_cpu`: `y[i] += a * x[i]`. -/
def compute_in_cpu_events : Nat → Nat → List Event
  | 0, _ => []
  | rem + 1, i =>
    Event.hostRead Buf.x i :: Event.hostRead Buf.y i :: Event.hostWrite Buf.y i
      :: compute_in_cpu_events rem (i + 1)

/-- Embeds `SAXPY_OCL_SVM::_compute_in_gpu` (`saxpy-cl.cpp:42-48`). -/
def SVM_compute_in_gpu_events : List Event :=
  [Event.unmapSVM Buf.x, Event.unmapSVM Buf.y_gpu, Event.kernel,
   Event.mapSVM Buf.x, Event.mapSVM Buf.y_gpu]

/-- The loop of `verify`: `fabs(y[i] - y_gpu[i]) > fabs(y[i] * 0.0001f)`. -/
def verify_events : Nat → Nat → List Event
  | 0, _ => []
  | rem + 1, i =>
    Event.hostRead Buf.y i :: Event.hostRead Buf.y_gpu i :: Event.hostRead Buf.y i
      :: verify_events rem (i + 1)

/-- Embeds `run<SAXPY_OCL_SVM>(a, N)`: `init`, `compute_in_cpu`, `compute_in_gpu`,
`verify`. -/
def SVM_run_events (N : Nat) : List Event :=
  SVM_init_events N ++ compute_in_cpu_events N 0 ++ SVM_compute_in_gpu_events
    ++ verify_events N 0

/-- Which of the two SVM buffers are mapped for the host. -/
structure SvmState where
  x_mapped : Bool
  y_gpu_mapped : Bool
  deriving DecidableEq, Repr

/-- Whether the host may touch buffer `b`: `y` is plain host memory, the SVM
buffers must be mapped. -/
def SvmState.hostVisible (s : SvmState) : Buf → Bool
  | .x => s.x_mapped
  | .y => true
  | .y_gpu => s.y_gpu_mapped

/-- Change of the mapping of buffer `b`. -/
def SvmState.setMapped (s : SvmState) (v : Bool) : Buf → SvmState
  | .x => { s with x_mapped := v }
  | .y => s
  | .y_gpu => { s with y_gpu_mapped := v }

/-- One event under the discipline of coarse-grained SVM: the kernel needs both
buffers unmapped, a host access needs its buffer visible; `none` is a breach. -/
def SvmState.step (s : SvmState) : Event → Option SvmState
  | .svmAlloc b => some (s.setMapped false b)
  | .hostAlloc _ => some s
  | .mapSVM b => some (s.setMapped true b)
  | .unmapSVM b => some (s.setMapped false b)
  | .kernel => if !s.x_mapped && !s.y_gpu_mapped then some s else none
  | .hostRead b _ => if s.hostVisible b then some s else none
  | .hostWrite b _ => if s.hostVisible b then some s else none

/-- A sequence of events under the discipline, from state `s`. -/
def SvmState.exec (s : SvmState) : List Event → Option SvmState
  | [] => some s
  | e :: rest =>
    match s.step e with
    | some s1 => s1.exec rest
    | none => none

/-- A host access, as opposed to an allocation, a map, an unmap or the kernel. -/
def Event.isHostAccess : Event → Bool
  | .hostRead _ _ => true
  | .hostWrite _ _ => true
  | _ => false

end Svm

/-! ## Theorems -/

section BaseLemmas

variable {α : Type}

theorem compute_in_cpu_loop_spec [Add α] [Mul α] (a : α) (x : List α) :
    ∀ (rem i : Nat) (y : List α), i + rem ≤ x.length → i + rem ≤ y.length →
      ∃ y1, compute_in_cpu_loop a x rem i y = some y1 ∧ y1.length = y.length ∧
        (∀ j, j < i ∨ i + rem ≤ j → y1[j]? = y[j]?) ∧
        (∀ j xj yj, i ≤ j → j < i + rem → x[j]? = some xj → y[j]? = some yj →
          y1[j]? = some (yj + a * xj)) := by
  intro rem
  induction rem with
  | zero =>
    intro i y _ _
    refine ⟨y, rfl, rfl, fun _ _ => rfl, ?_⟩
    intro j xj yj h1 h2
    omega
  | succ rem ih =>
    intro i y hx hy
    have hxi : i < x.length := by omega
    have hyi : i < y.length := by omega
    obtain ⟨y1, h1, h2, h3, h4⟩ := ih (i + 1) (y.set i (y[i] + a * x[i]))
      (by omega) (by simp; omega)
    refine ⟨y1, ?_, ?_, ?_, ?_⟩
    · simp only [compute_in_cpu_loop, List.getElem?_eq_getElem hxi,
        List.getElem?_eq_getElem hyi]
      exact h1
    · simpa using h2
    · intro j hj
      rw [h3 j (by omega)]
      exact List.getElem?_set_ne (by omega)
    · intro j xj yj hij hj hxj hyj
      by_cases hji : j = i
      · subst hji
        rw [h3 j (by omega), List.getElem?_set_self hyi]
        rw [List.getElem?_eq_getElem hxi] at hxj
        rw [List.getElem?_eq_getElem hyi] at hyj
        cases hxj
        cases hyj
        rfl
      · refine h4 j xj yj (by omega) (by omega) hxj ?_
        rw [List.getElem?_set_ne (by omega)]
        exact hyj

/-- C1. For buffers `x`, `y` of `N` elements, `compute_in_cpu` returns, keeps
`a`, `x`, `y_gpu` and `N`, and leaves in `y` a buffer of `N` elements whose
element `i` is `(old y[i]) + a * x[i]` for every `i < N`, the operations being
the element type's own `+` and `*`. -/
theorem compute_in_cpu_correct [Add α] [Mul α] (s : SAXPYBase α)
    (hx : s.x.length = s.N) (hy : s.y.length = s.N) :
    ∃ s1, compute_in_cpu s = some s1 ∧
      s1.a = s.a ∧ s1.x = s.x ∧ s1.y_gpu = s.y_gpu ∧ s1.N = s.N ∧
      s1.y.length = s.N ∧
      ∀ i xi yi, i < s.N → s.x[i]? = some xi → s.y[i]? = some yi →
        s1.y[i]? = some (yi + s.a * xi) := by
  obtain ⟨y1, h1, h2, _, h4⟩ :=
    compute_in_cpu_loop_spec s.a s.x s.N 0 s.y (by omega) (by omega)
  refine ⟨{ s with y := y1 }, ?_, rfl, rfl, rfl, rfl, ?_, ?_⟩
  · simp [compute_in_cpu, h1]
  · simpa [hy] using h2
  · intro i xi yi hi hxi hyi
    exact h4 i xi yi (by omega) (by omega) hxi hyi

/-- C1 at `a = 2`, `x = [1, 2]`, `y = [3, 4]` over the integers. -/
theorem compute_in_cpu_correct_witness :
    ∃ s1, compute_in_cpu (⟨2, [1, 2], [3, 4], [3, 4], 2⟩ : SAXPYBase Int) = some s1 ∧
      s1.a = 2 ∧ s1.x = [1, 2] ∧ s1.y_gpu = [3, 4] ∧ s1.N = 2 ∧
      s1.y.length = 2 ∧
      ∀ i xi yi, i < 2 → ([1, 2] : List Int)[i]? = some xi →
        ([3, 4] : List Int)[i]? = some yi → s1.y[i]? = some (yi + 2 * xi) :=
  compute_in_cpu_correct (⟨2, [1, 2], [3, 4], [3, 4], 2⟩ : SAXPYBase Int) rfl rfl

theorem wrapInt_eq_self (v : Int) (h1 : INT_MIN ≤ v) (h2 : v ≤ INT_MAX) : wrapInt v = v := by
  unfold INT_MIN at h1
  unfold INT_MAX at h2
  unfold wrapInt
  omega

theorem verify_loop_spec [Sub α] [Mul α] [LT α] [DecidableRel (fun (p q : α) => p < q)]
    (fabs : α → α) (tol : α) (y g : List α) :
    ∀ (rem i : Nat) (e : Int), i + rem ≤ y.length → i + rem ≤ g.length →
      0 ≤ e → e + rem ≤ INT_MAX →
      verify_loop fabs tol y g rem i e
        = some (e + ((List.range' i rem).countP (mismatchAt fabs tol y g) : Nat)) := by
  intro rem
  induction rem with
  | zero =>
    intro i e _ _ _ _
    simp [verify_loop]
  | succ rem ih =>
    intro i e hy hg he hmax
    have hyi : i < y.length := by omega
    have hgi : i < g.length := by omega
    have hmax1 : e + 1 + (rem : Int) ≤ INT_MAX := by push_cast at hmax; omega
    simp only [verify_loop, List.getElem?_eq_getElem hyi, List.getElem?_eq_getElem hgi]
    have hat : mismatchAt fabs tol y g i = mismatch fabs tol y[i] g[i] := by
      simp [mismatchAt, List.getElem?_eq_getElem hyi, List.getElem?_eq_getElem hgi]
    rw [List.range'_succ, List.countP_cons, hat]
    cases hm : mismatch fabs tol y[i] g[i] with
    | false =>
      have hmax0 : e + (rem : Int) ≤ INT_MAX := by omega
      simp [ih (i + 1) e (by omega) (by omega) he hmax0]
    | true =>
      have hw : wrapInt (e + 1) = e + 1 :=
        wrapInt_eq_self _ (by unfold INT_MIN; omega) (by omega)
      simp only [if_true, hw]
      rw [ih (i + 1) (e + 1) (by omega) (by omega) (by omega) hmax1]
      push_cast
      congr 1
      omega

/-- C2. For buffers `y`, `y_gpu` of `N` elements (`N` an `int`), `verify`
returns the number of indices `i < N` at which
`fabs(y[i] - y_gpu[i]) > fabs(y[i] * 0.0001f)` holds, the tolerance being taken
against the CPU value `y[i]` and the comparison strict; the count lies between
`0` and `N`. -/
theorem verify_counts_mismatches [Sub α] [Mul α] [LT α]
    [DecidableRel (fun (p q : α) => p < q)] (fabs : α → α) (tol : α) (s : SAXPYBase α)
    (hy : s.y.length = s.N) (hg : s.y_gpu.length = s.N) (hN : (s.N : Int) ≤ INT_MAX) :
    verify fabs tol s
        = some (((List.range s.N).countP
            (fun i => match s.y[i]?, s.y_gpu[i]? with
              | some yi, some gi => decide (fabs (yi * tol) < fabs (yi - gi))
              | _, _ => false) : Nat) : Int) ∧
      (List.range s.N).countP
          (fun i => match s.y[i]?, s.y_gpu[i]? with
            | some yi, some gi => decide (fabs (yi * tol) < fabs (yi - gi))
            | _, _ => false) ≤ s.N := by
  constructor
  · have h := verify_loop_spec fabs tol s.y s.y_gpu s.N 0 0 (by omega) (by omega)
      (le_refl 0) (by simpa using hN)
    rw [verify, h, List.range_eq_range']
    simp only [zero_add]
    rfl
  · calc (List.range s.N).countP _ ≤ (List.range s.N).length := List.countP_le_length _
      _ = s.N := List.length_range s.N

/-- C2 at `y = [1000, 2000, 0]`, `y_gpu = [1000, 2500, 1]` over the rationals
with `fabs = |·|` and tolerance `1/10000`. -/
theorem verify_counts_mismatches_witness :
    ∃ c : Nat,
      verify (fun v : ℚ => |v|) (1 / 10000)
        (⟨100, [1, 2, 3], [1000, 2000, 0], [1000, 2500, 1], 3⟩ : SAXPYBase ℚ)
        = some (c : Int) ∧ c ≤ 3 :=
  ⟨_, verify_counts_mismatches (fun v : ℚ => |v|) (1 / 10000)
    (⟨100, [1, 2, 3], [1000, 2000, 0], [1000, 2500, 1], 3⟩ : SAXPYBase ℚ) rfl rfl
    (by decide)⟩

theorem parallel_for_each_hc_eq [Add α] [Mul α] (a : α) (x : List α) :
    ∀ (rem i : Nat) (y : List α),
      parallel_for_each (SAXPY_HC_item a x) rem i y = compute_in_cpu_loop a x rem i y := by
  intro rem
  induction rem with
  | zero => intro i y; rfl
  | succ rem ih =>
    intro i y
    simp only [parallel_for_each, compute_in_cpu_loop, SAXPY_HC_item]
    cases hx : x[i]? with
    | none => rfl
    | some xi =>
      cases hy : y[i]? with
      | none => rfl
      | some yi => exact ih _ _

theorem SAXPY_HC_step_is_saxpy [Add α] [Mul α] :
    GpuStepIsSaxpy (SAXPY_HC_compute_in_gpu : SAXPYBase α → Option (SAXPYBase α)) := by
  intro s hx hg
  obtain ⟨g1, h1, h2, _, h4⟩ :=
    compute_in_cpu_loop_spec s.a s.x s.N 0 s.y_gpu (by omega) (by omega)
  refine ⟨{ s with y_gpu := g1 }, ?_, rfl, rfl, rfl, rfl, ?_, ?_⟩
  · simp [SAXPY_HC_compute_in_gpu, parallel_for_each_hc_eq, h1]
  · simpa [hg] using h2
  · intro i xi gi hi hxi hgi
    exact h4 i xi gi (by omega) (by omega) hxi hgi

theorem verify_same_buffers [Sub α] [Mul α] [LT α] [DecidableRel (fun (p q : α) => p < q)]
    (fabs : α → α) (tol : α) (hfabs : ∀ v : α, ¬ fabs (v * tol) < fabs (v - v))
    (s : SAXPYBase α) (hy : s.y.length = s.N) (hg : s.y_gpu = s.y)
    (hN : (s.N : Int) ≤ INT_MAX) : verify fabs tol s = some 0 := by
  have h := verify_loop_spec fabs tol s.y s.y_gpu s.N 0 0 (by omega) (by rw [hg]; omega)
    (le_refl 0) (by simpa using hN)
  rw [verify, h, hg]
  have hc : (List.range' 0 s.N).countP (mismatchAt fabs tol s.y s.y) = 0 := by
    rw [List.countP_eq_zero]
    intro i _
    unfold mismatchAt
    cases hi : s.y[i]? with
    | none => simp
    | some v => simp [mismatch, hfabs v]
  simp [hc]

theorem init_spec (a : α) (N : Nat) (tmp0 tmp1 : List α)
    (h0 : tmp0.length = N) (h1 : tmp1.length = N) :
    init a N tmp0 tmp1 = some { a := a, x := tmp0, y := tmp1, y_gpu := tmp1, N := N } := by
  simp [init, copy_n, ← h0, ← h1, h0.trans h1.symm]

/-- C3. For every scalar `a` and every `N` (an `int`, `N ≥ 0`), with buffers
`tmp0`, `tmp1` of `N` generated elements: if the strategy's GPU step replaces
each `y_gpu[i]` by `y_gpu[i] + a * x[i]` for `i < N` and changes neither `x`
nor `y`, then `run`, which performs `init`, `compute_in_cpu`, `compute_in_gpu`
and `verify` in that order, returns a `Result` whose `errors` field is `0`.
The element type enters only through `hfabs`: no value is farther from itself
than the tolerance. -/
theorem run_errors_zero {K : Type} [Add α] [Sub α] [Mul α] [LT α]
    [DecidableRel (fun (p q : α) => p < q)] (fabs : α → α) (tol : α)
    (gpu : SAXPYBase α → Option (SAXPYBase α)) (t0 t1 t2 t3 : K)
    (a : α) (N : Nat) (tmp0 tmp1 : List α)
    (hN : (N : Int) ≤ INT_MAX) (h0 : tmp0.length = N) (h1 : tmp1.length = N)
    (hfabs : ∀ v : α, ¬ fabs (v * tol) < fabs (v - v))
    (hgpu : GpuStepIsSaxpy gpu) :
    ∃ r, run fabs tol gpu t0 t1 t2 t3 a N tmp0 tmp1 = some r ∧ r.errors = 0 ∧
      r.init_time = t0 ∧ r.cpu_time = t1 ∧ r.gpu_time = t2 ∧ r.verify_time = t3 := by
  obtain ⟨y1, hc1, hc6, _, hc7⟩ :=
    compute_in_cpu_loop_spec a tmp0 N 0 tmp1 (by omega) (by omega)
  obtain ⟨s2, hg1, _, hg3, _, hg5, hg6, hg7⟩ :=
    hgpu ({ a := a, x := tmp0, y := y1, y_gpu := tmp1, N := N } : SAXPYBase α) h0 h1
  dsimp only at hg3 hg5 hg6 hg7
  have hsame : s2.y_gpu = s2.y := by
    apply List.ext_getElem?
    intro i
    by_cases hi : i < N
    · have hxi : tmp0[i]? = some tmp0[i] := List.getElem?_eq_getElem (by omega)
      have hyi : tmp1[i]? = some tmp1[i] := List.getElem?_eq_getElem (by omega)
      rw [hg7 i tmp0[i] tmp1[i] hi hxi hyi, hg5,
        hc7 i tmp0[i] tmp1[i] (by omega) (by omega) hxi hyi]
    · rw [List.getElem?_eq_none (by omega), List.getElem?_eq_none (by rw [hg5]; omega)]
  have hv : verify fabs tol s2 = some 0 :=
    verify_same_buffers fabs tol hfabs s2 (by rw [hg5, hg3, hc6]; exact h1) hsame
      (by rw [hg3]; exact hN)
  refine ⟨{ init_time := t0, cpu_time := t1, gpu_time := t2, verify_time := t3, errors := 0 },
    ?_, rfl, rfl, rfl, rfl, rfl⟩
  simp [run, init_spec a N tmp0 tmp1 h0 h1, compute_in_cpu, hc1, compute_in_gpu, hg1, hv]

/-- C3 for the HC strategy at `a = 100`, `N = 2` over the rationals. -/
theorem run_errors_zero_witness :
    ∃ r, run (fun v : ℚ => |v|) (1 / 10000) SAXPY_HC_compute_in_gpu
        (1 : ℚ) 2 3 4 100 2 [1, -2] [5, 7] = some r ∧ r.errors = 0 ∧
      r.init_time = 1 ∧ r.cpu_time = 2 ∧ r.gpu_time = 3 ∧ r.verify_time = 4 :=
  run_errors_zero (fun v : ℚ => |v|) (1 / 10000) SAXPY_HC_compute_in_gpu
    (1 : ℚ) 2 3 4 100 2 [1, -2] [5, 7] (by decide) rfl rfl
    (fun v => by simp) SAXPY_HC_step_is_saxpy

end BaseLemmas

section SummaryLemmas

variable {K : Type} [LinearOrderedField K]

theorem foldl_avg_step_times (rs : List (Result K)) :
    ∀ acc : Result K,
      (rs.foldl avg_step acc).init_time = acc.init_time + (rs.map Result.init_time).sum ∧
      (rs.foldl avg_step acc).cpu_time = acc.cpu_time + (rs.map Result.cpu_time).sum ∧
      (rs.foldl avg_step acc).gpu_time = acc.gpu_time + (rs.map Result.gpu_time).sum ∧
      (rs.foldl avg_step acc).verify_time
        = acc.verify_time + (rs.map Result.verify_time).sum := by
  induction rs with
  | nil => intro acc; simp
  | cons r rs ih =>
    intro acc
    obtain ⟨h1, h2, h3, h4⟩ := ih (avg_step acc r)
    simp only [List.foldl_cons, List.map_cons, List.sum_cons]
    rw [h1, h2, h3, h4]
    simp only [avg_step]
    refine ⟨?_, ?_, ?_, ?_⟩ <;> ring

theorem foldl_var_step_times (avg : Result K) (rs : List (Result K)) :
    ∀ acc : Result K,
      (rs.foldl (var_step avg) acc).init_time
        = acc.init_time + (rs.map (fun r => (r.init_time - avg.init_time) ^ 2)).sum ∧
      (rs.foldl (var_step avg) acc).cpu_time
        = acc.cpu_time + (rs.map (fun r => (r.cpu_time - avg.cpu_time) ^ 2)).sum ∧
      (rs.foldl (var_step avg) acc).gpu_time
        = acc.gpu_time + (rs.map (fun r => (r.gpu_time - avg.gpu_time) ^ 2)).sum ∧
      (rs.foldl (var_step avg) acc).verify_time
        = acc.verify_time + (rs.map (fun r => (r.verify_time - avg.verify_time) ^ 2)).sum := by
  induction rs with
  | nil => intro acc; simp
  | cons r rs ih =>
    intro acc
    obtain ⟨h1, h2, h3, h4⟩ := ih (var_step avg acc r)
    simp only [List.foldl_cons, List.map_cons, List.sum_cons]
    rw [h1, h2, h3, h4]
    simp only [var_step]
    refine ⟨?_, ?_, ?_, ?_⟩ <;> ring

theorem summarize_avg_times (rs : List (Result K)) :
    (Result.summarize rs).1.init_time = specMean (rs.map Result.init_time) ∧
    (Result.summarize rs).1.cpu_time = specMean (rs.map Result.cpu_time) ∧
    (Result.summarize rs).1.gpu_time = specMean (rs.map Result.gpu_time) ∧
    (Result.summarize rs).1.verify_time = specMean (rs.map Result.verify_time) := by
  obtain ⟨h1, h2, h3, h4⟩ := foldl_avg_step_times rs Result.zero
  simp only [Result.summarize, div_size, specMean, List.length_map]
  rw [h1, h2, h3, h4]
  simp [Result.zero]

theorem summarize_var_times (rs : List (Result K)) :
    (Result.summarize rs).2.init_time = specVariance (rs.map Result.init_time) ∧
    (Result.summarize rs).2.cpu_time = specVariance (rs.map Result.cpu_time) ∧
    (Result.summarize rs).2.gpu_time = specVariance (rs.map Result.gpu_time) ∧
    (Result.summarize rs).2.verify_time = specVariance (rs.map Result.verify_time) := by
  obtain ⟨a1, a2, a3, a4⟩ := summarize_avg_times rs
  obtain ⟨h1, h2, h3, h4⟩ := foldl_var_step_times (Result.summarize rs).1 rs Result.zero
  have hv : (Result.summarize rs).2
      = div_size (rs.foldl (var_step (Result.summarize rs).1) Result.zero) rs.length := rfl
  rw [hv]
  simp only [div_size]
  rw [h1, h2, h3, h4, a1, a2, a3, a4]
  simp [specVariance, Result.zero, List.map_map, Function.comp_def]

theorem specVariance_nonneg (xs : List K) : 0 ≤ specVariance xs := by
  unfold specVariance
  apply div_nonneg
  · apply List.sum_nonneg
    intro v hv
    obtain ⟨w, _, rfl⟩ := List.mem_map.mp hv
    positivity
  · positivity

theorem specVariance_eq_zero (xs : List K) (h : ∀ v ∈ xs, ∀ w ∈ xs, v = w) :
    specVariance xs = 0 := by
  cases xs with
  | nil => simp [specVariance]
  | cons c t =>
    have hall : ∀ v ∈ c :: t, v = c := fun v hv => h v hv c (List.mem_cons_self c t)
    have hrep : c :: t = List.replicate (c :: t).length c :=
      List.eq_replicate_iff.mpr ⟨rfl, hall⟩
    have hlen : ((c :: t).length : K) ≠ 0 := by
      simp only [List.length_cons]
      positivity
    have hmean : specMean (c :: t) = c := by
      unfold specMean
      rw [hrep, List.sum_replicate, List.length_replicate, nsmul_eq_mul]
      field_simp
    unfold specVariance
    rw [hmean]
    have hz : ((c :: t).map (fun v => (v - c) ^ 2)).sum = 0 := by
      apply List.sum_eq_zero
      intro v hv
      obtain ⟨w, hw, rfl⟩ := List.mem_map.mp hv
      rw [hall w hw]
      simp
    rw [hz, zero_div]

/-- C4. For every non-empty list of results, the first `Result` returned by
`Result::summarize` holds, in each of `init_time`, `cpu_time`, `gpu_time` and
`verify_time`, the arithmetic mean of that field over the list: the sum of the
field divided by the number of results, the timings being exact numbers. -/
theorem summarize_mean_is_arithmetic_mean (rs : List (Result K)) (hne : rs ≠ []) :
    (Result.summarize rs).1.init_time
        = (rs.map Result.init_time).sum / (rs.length : K) ∧
    (Result.summarize rs).1.cpu_time
        = (rs.map Result.cpu_time).sum / (rs.length : K) ∧
    (Result.summarize rs).1.gpu_time
        = (rs.map Result.gpu_time).sum / (rs.length : K) ∧
    (Result.summarize rs).1.verify_time
        = (rs.map Result.verify_time).sum / (rs.length : K) ∧
    (rs.length : K) ≠ 0 := by
  obtain ⟨a1, a2, a3, a4⟩ := summarize_avg_times rs
  have hlen : (rs.length : K) ≠ 0 := by
    have : rs.length ≠ 0 := fun h0 => hne (List.length_eq_zero.mp h0)
    exact_mod_cast this
  rw [a1, a2, a3, a4]
  refine ⟨?_, ?_, ?_, ?_, hlen⟩ <;> simp only [specMean, List.length_map]

/-- C4 on three runs with rational timings. -/
theorem summarize_mean_is_arithmetic_mean_witness :
    (Result.summarize ([⟨1, 2, 3, 4, 0⟩, ⟨2, 2, 5, 4, 0⟩, ⟨6, 2, 3, 5, 0⟩] : List (Result ℚ))).1.init_time
        = (([⟨1, 2, 3, 4, 0⟩, ⟨2, 2, 5, 4, 0⟩, ⟨6, 2, 3, 5, 0⟩] : List (Result ℚ)).map
            Result.init_time).sum / 3 :=
  (summarize_mean_is_arithmetic_mean
    ([⟨1, 2, 3, 4, 0⟩, ⟨2, 2, 5, 4, 0⟩, ⟨6, 2, 3, 5, 0⟩] : List (Result ℚ))
    (by simp)).1

/-- C5. For every non-empty list of results, the second `Result` returned by
`Result::summarize` holds, in each of `init_time`, `cpu_time`, `gpu_time` and
`verify_time`, the variance of that field over the list: the sum of the squared
deviations from the field's mean divided by the number of results. It is
therefore non-negative, and zero when all results agree in that field. The
timings are exact numbers. -/
theorem summarize_variance_is_variance (rs : List (Result K)) (hne : rs ≠ []) :
    ((Result.summarize rs).2.init_time = specVariance (rs.map Result.init_time) ∧
      (Result.summarize rs).2.cpu_time = specVariance (rs.map Result.cpu_time) ∧
      (Result.summarize rs).2.gpu_time = specVariance (rs.map Result.gpu_time) ∧
      (Result.summarize rs).2.verify_time = specVariance (rs.map Result.verify_time)) ∧
    (0 ≤ (Result.summarize rs).2.init_time ∧ 0 ≤ (Result.summarize rs).2.cpu_time ∧
      0 ≤ (Result.summarize rs).2.gpu_time ∧ 0 ≤ (Result.summarize rs).2.verify_time) ∧
    ((∀ r ∈ rs, ∀ q ∈ rs, r.init_time = q.init_time) →
      (Result.summarize rs).2.init_time = 0) ∧
    ((∀ r ∈ rs, ∀ q ∈ rs, r.cpu_time = q.cpu_time) →
      (Result.summarize rs).2.cpu_time = 0) ∧
    ((∀ r ∈ rs, ∀ q ∈ rs, r.gpu_time = q.gpu_time) →
      (Result.summarize rs).2.gpu_time = 0) ∧
    ((∀ r ∈ rs, ∀ q ∈ rs, r.verify_time = q.verify_time) →
      (Result.summarize rs).2.verify_time = 0) ∧
    (rs.length : K) ≠ 0 := by
  obtain ⟨v1, v2, v3, v4⟩ := summarize_var_times rs
  have hlen : (rs.length : K) ≠ 0 := by
    have : rs.length ≠ 0 := fun h0 => hne (List.length_eq_zero.mp h0)
    exact_mod_cast this
  have hz : ∀ f : Result K → K, (∀ r ∈ rs, ∀ q ∈ rs, f r = f q) →
      specVariance (rs.map f) = 0 := by
    intro f hf
    apply specVariance_eq_zero
    intro v hv w hw
    obtain ⟨r, hr, rfl⟩ := List.mem_map.mp hv
    obtain ⟨q, hq, rfl⟩ := List.mem_map.mp hw
    exact hf r hr q hq
  rw [v1, v2, v3, v4]
  exact ⟨⟨rfl, rfl, rfl, rfl⟩,
    ⟨specVariance_nonneg _, specVariance_nonneg _, specVariance_nonneg _,
      specVariance_nonneg _⟩,
    hz Result.init_time, hz Result.cpu_time, hz Result.gpu_time, hz Result.verify_time, hlen⟩

/-- C5 on three runs with rational timings. -/
theorem summarize_variance_is_variance_witness :
    0 ≤ (Result.summarize
      ([⟨1, 2, 3, 4, 0⟩, ⟨2, 2, 5, 4, 0⟩, ⟨6, 2, 3, 5, 0⟩] : List (Result ℚ))).2.init_time :=
  (summarize_variance_is_variance
    ([⟨1, 2, 3, 4, 0⟩, ⟨2, 2, 5, 4, 0⟩, ⟨6, 2, 3, 5, 0⟩] : List (Result ℚ))
    (by simp)).2.1.1

theorem foldl_avg_step_errors (rs : List (Result K)) :
    ∀ acc : Result K, 0 ≤ acc.errors → (∀ r ∈ rs, 0 ≤ r.errors) →
      acc.errors + (rs.map Result.errors).sum ≤ INT_MAX →
      (rs.foldl avg_step acc).errors = acc.errors + (rs.map Result.errors).sum := by
  induction rs with
  | nil => intro acc _ _ _; simp
  | cons r rs ih =>
    intro acc hacc hnn hmax
    have hr : 0 ≤ r.errors := hnn r (List.mem_cons_self r rs)
    have hrest : 0 ≤ (rs.map Result.errors).sum := by
      apply List.sum_nonneg
      intro v hv
      obtain ⟨q, hq, rfl⟩ := List.mem_map.mp hv
      exact hnn q (List.mem_cons_of_mem r hq)
    simp only [List.map_cons, List.sum_cons] at hmax
    have hstep : (avg_step acc r).errors = acc.errors + r.errors := by
      simp only [avg_step, avg_errors_sum]
      exact wrapInt_eq_self _ (by unfold INT_MIN; omega) (by omega)
    simp only [List.foldl_cons, List.map_cons, List.sum_cons]
    rw [ih (avg_step acc r) (by rw [hstep]; omega)
      (fun q hq => hnn q (List.mem_cons_of_mem r hq)) (by rw [hstep]; omega), hstep]
    ring

/-- C6, amended. For every non-empty list of results with non-negative error
counts whose sum fits an `int`, the `errors` field of the mean returned by
`Result::summarize` is the integer quotient of the sum of the error counts by
the number of results: the mean rounded down to a whole number. -/
theorem summarize_avg_errors_is_quotient (rs : List (Result K)) (hne : rs ≠ [])
    (hnn : ∀ r ∈ rs, 0 ≤ r.errors) (hsum : (rs.map Result.errors).sum ≤ INT_MAX) :
    (Result.summarize rs).1.errors = (rs.map Result.errors).sum / (rs.length : Int) ∧
    (rs.length : Int) * (Result.summarize rs).1.errors ≤ (rs.map Result.errors).sum ∧
    (rs.map Result.errors).sum
      < (rs.length : Int) * ((Result.summarize rs).1.errors + 1) := by
  have hlen : 0 < (rs.length : Int) := by
    have : rs.length ≠ 0 := fun h0 => hne (List.length_eq_zero.mp h0)
    omega
  have hfold := foldl_avg_step_errors rs Result.zero (le_refl _) hnn
    (by simpa [Result.zero] using hsum)
  have hs0 : 0 ≤ (rs.map Result.errors).sum := by
    apply List.sum_nonneg
    intro v hv
    obtain ⟨q, hq, rfl⟩ := List.mem_map.mp hv
    exact hnn q hq
  have hq0 : 0 ≤ (rs.map Result.errors).sum / (rs.length : Int) :=
    Int.ediv_nonneg hs0 (le_of_lt hlen)
  have hq1 : (rs.map Result.errors).sum / (rs.length : Int) ≤ (rs.map Result.errors).sum :=
    Int.ediv_le_self _ hs0
  have hmain : (Result.summarize rs).1.errors
      = (rs.map Result.errors).sum / (rs.length : Int) := by
    have he : (Result.summarize rs).1.errors
        = wrapInt (errors_quot (rs.foldl avg_step Result.zero).errors rs.length) := rfl
    rw [he, hfold]
    have hz : (Result.zero : Result K).errors = 0 := rfl
    have hsz : toSizeT ((rs.map Result.errors).sum) = (rs.map Result.errors).sum := by
      unfold toSizeT
      unfold INT_MAX at hsum
      omega
    rw [hz, zero_add, errors_quot, hsz]
    exact wrapInt_eq_self _ (by unfold INT_MIN; omega) (by omega)
  rw [hmain]
  refine ⟨rfl, ?_, ?_⟩
  · exact Int.mul_ediv_self_le (ne_of_gt hlen)
  · rw [mul_add, mul_one]
    exact Int.lt_mul_ediv_self_add hlen

/-- C6, amended, on counts `4`, `0`, `1`: the mean field is `1`. -/
theorem summarize_avg_errors_is_quotient_witness :
    (Result.summarize ([Result.ofErrors 4, Result.ofErrors 0, Result.ofErrors 1] :
        List (Result ℚ))).1.errors
      = (([Result.ofErrors 4, Result.ofErrors 0, Result.ofErrors 1] :
          List (Result ℚ)).map Result.errors).sum / 3 :=
  (summarize_avg_errors_is_quotient
    ([Result.ofErrors 4, Result.ofErrors 0, Result.ofErrors 1] : List (Result ℚ))
    (by simp) (by decide) (by decide)).1

/-- C6 fails as stated: on the error counts `1` and `0` the mean is `1/2`, and
the `errors` field of the mean returned by `Result::summarize` is `0`. -/
theorem summarize_avg_errors_not_mean :
    (Result.summarize ([Result.ofErrors 1, Result.ofErrors 0] : List (Result ℚ))).1.errors = 0 ∧
    (((Result.summarize ([Result.ofErrors 1, Result.ofErrors 0] :
        List (Result ℚ))).1.errors : Int) : ℚ)
      ≠ (((([Result.ofErrors 1, Result.ofErrors 0] : List (Result ℚ)).map
          Result.errors).sum : Int) : ℚ) / 2 := by
  have h : (Result.summarize ([Result.ofErrors 1, Result.ofErrors 0] :
      List (Result ℚ))).1.errors = 0 := by decide
  refine ⟨h, ?_⟩
  rw [h]
  norm_num [Result.ofErrors]

/-- C9 at three runs with error counts `1`, `0`, `0`: one run reported a
mismatch, both `avg.errors` and `var.errors` come out as `0`, and
`Result::dump` does not write the `errors:` field. -/
theorem dump_hides_single_mismatch :
    (∃ r ∈ ([Result.ofErrors 1, Result.ofErrors 0, Result.ofErrors 0] : List (Result ℚ)),
      r.errors ≠ 0) ∧
    (Result.summarize ([Result.ofErrors 1, Result.ofErrors 0, Result.ofErrors 0] :
      List (Result ℚ))).1.errors = 0 ∧
    (Result.summarize ([Result.ofErrors 1, Result.ofErrors 0, Result.ofErrors 0] :
      List (Result ℚ))).2.errors = 0 ∧
    (Result.dump "HCC" ([Result.ofErrors 1, Result.ofErrors 0, Result.ofErrors 0] :
      List (Result ℚ))).errors = none := by
  refine ⟨⟨Result.ofErrors 1, by simp, by decide⟩, by decide, by decide, by decide⟩

/-- C10 at three runs with error counts `N`, `0`, `0`, `N = 1024*1024*256`:
the sums and the quotient for `avg.errors` fit an `int`, and the first partial
sum of squared deviations, `(N - N/3)^2 = 32025597469494841`, does not. -/
theorem summarize_var_errors_exceeds_int :
    (summarize_errors_stores ([Result.ofErrors (1024 * 1024 * 256), Result.ofErrors 0,
        Result.ofErrors 0] : List (Result ℚ))).take 5
      = [268435456, 268435456, 268435456, 89478485, 32025597469494841] ∧
    inInt 32025597469494841 = false ∧
    ∃ v ∈ summarize_errors_stores ([Result.ofErrors (1024 * 1024 * 256), Result.ofErrors 0,
        Result.ofErrors 0] : List (Result ℚ)), inInt v = false := by
  refine ⟨by decide, by decide, by decide⟩

end SummaryLemmas

section DriverLemmas

variable {K : Type}

theorem select_functions_cases (coarse fine system cap : Nat) :
    select_functions coarse fine system cap ∈
      [[Strategy.HOST_PTR],
       [Strategy.HOST_PTR, Strategy.SVM_SYSTEM],
       [Strategy.HOST_PTR, Strategy.SVM_FINE_GRAINED],
       [Strategy.HOST_PTR, Strategy.SVM_FINE_GRAINED, Strategy.SVM_SYSTEM],
       [Strategy.HOST_PTR, Strategy.SVM],
       [Strategy.HOST_PTR, Strategy.SVM, Strategy.SVM_SYSTEM],
       [Strategy.HOST_PTR, Strategy.SVM, Strategy.SVM_FINE_GRAINED],
       [Strategy.HOST_PTR, Strategy.SVM, Strategy.SVM_FINE_GRAINED, Strategy.SVM_SYSTEM]] := by
  unfold select_functions
  by_cases h1 : cap &&& coarse ≠ 0 <;> by_cases h2 : cap &&& fine ≠ 0 <;>
    by_cases h3 : cap &&& system ≠ 0 <;> simp [h1, h2, h3]

theorem inner_loop_spec (call : Strategy → Nat → Result K) (functions : List Strategy) :
    ∀ (rem i : Nat) (st : Trials K), i + rem ≤ functions.length →
      st.results.length = functions.length →
      ∃ st1, inner_loop call functions rem i st = some st1 ∧
        st1.results.length = functions.length ∧
        st1.calls = st.calls ++ (functions.drop i).take rem ∧
        ∀ j, (st1.results[j]?).map List.length
          = (st.results[j]?).map
              (fun l => l.length + if i ≤ j ∧ j < i + rem then 1 else 0) := by
  intro rem
  induction rem with
  | zero =>
    intro i st _ hlen
    refine ⟨st, rfl, hlen, by simp, ?_⟩
    intro j
    have hz : (if i ≤ j ∧ j < i then 1 else 0) = 0 := if_neg (by omega)
    simp only [Nat.add_zero, hz]
  | succ rem ih =>
    intro i st hi hlen
    have hif : i < functions.length := by omega
    have hir : i < st.results.length := by omega
    obtain ⟨st1, h1, h2, h3, h4⟩ := ih (i + 1)
      { results := st.results.set i (st.results[i] ++ [call functions[i] st.calls.length])
        calls := st.calls ++ [functions[i]] }
      (by omega) (by simpa using hlen)
    refine ⟨st1, ?_, h2, ?_, ?_⟩
    · simp only [inner_loop, List.getElem?_eq_getElem hif, List.getElem?_eq_getElem hir]
      exact h1
    · rw [h3, List.drop_eq_getElem_cons hif, List.take_succ_cons]
      simp
    · intro j
      rw [h4 j]
      by_cases hji : j = i
      · subst hji
        have hc1 : ¬ (j + 1 ≤ j ∧ j < j + 1 + rem) := by omega
        have hc2 : j ≤ j ∧ j < j + (rem + 1) := by omega
        simp only [List.getElem?_set_self hir, List.getElem?_eq_getElem hir, Option.map_some',
          if_neg hc1, if_pos hc2, List.length_append, List.length_singleton, Nat.add_zero]
      · have hne : i ≠ j := fun h => hji h.symm
        simp only [List.getElem?_set_ne hne]
        have hiff : (i + 1 ≤ j ∧ j < i + 1 + rem) ↔ (i ≤ j ∧ j < i + (rem + 1)) := by omega
        simp only [hiff]

theorem count_in_selection (functions : List Strategy)
    (h : functions ∈
      [[Strategy.HOST_PTR],
       [Strategy.HOST_PTR, Strategy.SVM_SYSTEM],
       [Strategy.HOST_PTR, Strategy.SVM_FINE_GRAINED],
       [Strategy.HOST_PTR, Strategy.SVM_FINE_GRAINED, Strategy.SVM_SYSTEM],
       [Strategy.HOST_PTR, Strategy.SVM],
       [Strategy.HOST_PTR, Strategy.SVM, Strategy.SVM_SYSTEM],
       [Strategy.HOST_PTR, Strategy.SVM, Strategy.SVM_FINE_GRAINED],
       [Strategy.HOST_PTR, Strategy.SVM, Strategy.SVM_FINE_GRAINED, Strategy.SVM_SYSTEM]]) :
    Strategy.HOST_PTR ∈ functions ∧
    ∀ s, (functions ++ functions ++ functions).count s = if s ∈ functions then 3 else 0 := by
  simp only [List.mem_cons, List.mem_singleton, List.not_mem_nil, or_false] at h
  rcases h with h | h | h | h | h | h | h | h <;> subst h <;>
    exact ⟨by decide, fun s => by cases s <;> decide⟩

theorem dump_loop_args_spec (functions : List Strategy) (results : List (List (Result K)))
    (hlen : results.length = functions.length) :
    ∀ (rem i : Nat), i + rem ≤ functions.length →
      ∃ args, dump_loop_args functions results rem i = some args ∧
        args.length = rem ∧ ∀ p ∈ args, p.2 ∈ results := by
  intro rem
  induction rem with
  | zero =>
    intro i _
    exact ⟨[], rfl, rfl, by simp⟩
  | succ rem ih =>
    intro i hi
    have hif : i < functions.length := by omega
    have hir : i < results.length := by omega
    obtain ⟨rest, h1, h2, h3⟩ := ih (i + 1) (by omega)
    refine ⟨(functions[i].label, results[i]) :: rest, ?_, by simp [h2], ?_⟩
    · simp only [dump_loop_args, List.getElem?_eq_getElem hif, List.getElem?_eq_getElem hir, h1]
    · intro p hp
      rcases List.mem_cons.mp hp with rfl | hp
      · exact List.getElem_mem hir
      · exact h3 p hp

theorem trials_on_selection (call : Strategy → Nat → Result K) (functions : List Strategy) :
    ∃ st, trial_loop call functions 3
        { results := List.replicate functions.length [], calls := [] } = some st ∧
      st.results.length = functions.length ∧
      (∀ rs ∈ st.results, rs.length = 3) ∧
      st.calls = functions ++ functions ++ functions := by
  obtain ⟨st1, a1, a2, a3, a4⟩ := inner_loop_spec call functions functions.length 0
    { results := List.replicate functions.length [], calls := [] } (by omega) (by simp)
  obtain ⟨st2, b1, b2, b3, b4⟩ :=
    inner_loop_spec call functions functions.length 0 st1 (by omega) a2
  obtain ⟨st3, c1, c2, c3, c4⟩ :=
    inner_loop_spec call functions functions.length 0 st2 (by omega) b2
  refine ⟨st3, ?_, c2, ?_, ?_⟩
  · simp only [trial_loop, a1, b1, c1]
  · intro rs hrs
    obtain ⟨j, hj⟩ := List.mem_iff_getElem?.mp hrs
    have hjlt : j < functions.length := by
      rw [← c2]
      by_contra hcon
      rw [List.getElem?_eq_none (by omega)] at hj
      cases hj
    have hcond : 0 ≤ j ∧ j < 0 + functions.length := by omega
    have h0 : (List.replicate functions.length ([] : List (Result K)))[j]? = some [] := by
      rw [List.getElem?_eq_getElem (by simpa using hjlt)]
      simp
    have e1 := a4 j
    have e2 := b4 j
    have e3 := c4 j
    simp only [hcond, and_self, if_true] at e1 e2 e3
    rw [h0] at e1
    cases h1 : st1.results[j]? with
    | none => rw [h1] at e1; simp at e1
    | some l1 =>
      rw [h1] at e1 e2
      cases h2 : st2.results[j]? with
      | none => rw [h2] at e2; simp at e2
      | some l2 =>
        rw [h2] at e2 e3
        rw [hj] at e3
        simp only [Option.map_some', Option.some.injEq, List.length_nil] at e1 e2 e3
        omega
  · rw [c3, b3, a3]
    simp

theorem main_hc_loop_length (f : Nat → Result K) :
    ∀ (rem : Nat) (results : List (Result K)),
      (main_hc_loop f rem results).length = results.length + rem := by
  intro rem
  induction rem with
  | zero => intro results; rfl
  | succ rem ih =>
    intro results
    rw [main_hc_loop, ih]
    simp
    omega

/-- C7. For every device capability mask, when the trial loops of both drivers
end: the OpenCL driver has selected at least the host-pointer strategy, has run
the selected strategies round-robin in each of three trials, so every selected
strategy has been run exactly three times (and no other at all) and every
result list holds exactly three `Result`s; the HC driver's list holds three as
well. Hence every call of `Result::dump`, and so of `Result::summarize`, gets a
list of size `3`, and the divisor `results.size()` is never zero. -/
theorem drivers_summarize_three_results (coarse fine system cap : Nat)
    (call : Strategy → Nat → Result K) (f : Nat → Result K) :
    Strategy.HOST_PTR ∈ select_functions coarse fine system cap ∧
    (∃ st, main_cl_trials coarse fine system cap call = some st ∧
      st.results.length = (select_functions coarse fine system cap).length ∧
      (∀ rs ∈ st.results, rs.length = 3) ∧
      st.calls = select_functions coarse fine system cap
        ++ select_functions coarse fine system cap
        ++ select_functions coarse fine system cap ∧
      (∀ s, st.calls.count s
        = if s ∈ select_functions coarse fine system cap then 3 else 0)) ∧
    (∃ args, main_cl_dump_args coarse fine system cap call = some args ∧
      args.length = (select_functions coarse fine system cap).length ∧
      ∀ p ∈ args, p.2.length = 3 ∧ p.2.length ≠ 0) ∧
    (main_hc_dump_args f).2.length = 3 := by
  obtain ⟨h0, h5⟩ := count_in_selection (select_functions coarse fine system cap)
    (select_functions_cases coarse fine system cap)
  obtain ⟨st, h1, h2, h3, h4⟩ :=
    trials_on_selection call (select_functions coarse fine system cap)
  obtain ⟨args, h6, h7, h8⟩ :=
    dump_loop_args_spec (select_functions coarse fine system cap) st.results h2
      (select_functions coarse fine system cap).length 0 (by omega)
  refine ⟨h0, ⟨st, h1, h2, h3, h4, ?_⟩, ⟨args, ?_, h7, ?_⟩, ?_⟩
  · rw [h4]
    exact h5
  · simp only [main_cl_dump_args, main_cl_trials]
    rw [h1]
    exact h6
  · intro p hp
    have := h3 p.2 (h8 p hp)
    omega
  · simp [main_hc_dump_args, main_hc_loop_length]

end DriverLemmas

section SvmLemmas

theorem exec_append (s : SvmState) (es fs : List Event) :
    s.exec (es ++ fs) = match s.exec es with
      | some s1 => s1.exec fs
      | none => none := by
  induction es generalizing s with
  | nil => rfl
  | cons e es ih =>
    simp only [List.cons_append, SvmState.exec]
    cases s.step e with
    | none => rfl
    | some s1 => exact ih s1

theorem exec_host_accesses (es : List Event) (hes : ∀ e ∈ es, e.isHostAccess = true) :
    (⟨true, true⟩ : SvmState).exec es = some ⟨true, true⟩ := by
  induction es with
  | nil => rfl
  | cons e es ih =>
    have he := hes e (List.mem_cons_self e es)
    have hstep : (⟨true, true⟩ : SvmState).step e = some ⟨true, true⟩ := by
      cases e with
      | hostRead b i => cases b <;> rfl
      | hostWrite b i => cases b <;> rfl
      | svmAlloc b => simp [Event.isHostAccess] at he
      | hostAlloc b => simp [Event.isHostAccess] at he
      | mapSVM b => simp [Event.isHostAccess] at he
      | unmapSVM b => simp [Event.isHostAccess] at he
      | kernel => simp [Event.isHostAccess] at he
    simp only [SvmState.exec, hstep]
    exact ih (fun e1 h1 => hes e1 (List.mem_cons_of_mem e h1))

theorem copy_n_events_host (b : Buf) :
    ∀ (rem i : Nat), ∀ e ∈ copy_n_events b rem i, e.isHostAccess = true := by
  intro rem
  induction rem with
  | zero => intro i e he; simp [copy_n_events] at he
  | succ rem ih =>
    intro i e he
    simp only [copy_n_events, List.mem_cons] at he
    rcases he with rfl | he
    · rfl
    · exact ih (i + 1) e he

theorem compute_in_cpu_events_host :
    ∀ (rem i : Nat), ∀ e ∈ compute_in_cpu_events rem i, e.isHostAccess = true := by
  intro rem
  induction rem with
  | zero => intro i e he; simp [compute_in_cpu_events] at he
  | succ rem ih =>
    intro i e he
    simp only [compute_in_cpu_events, List.mem_cons] at he
    rcases he with rfl | rfl | rfl | he
    · rfl
    · rfl
    · rfl
    · exact ih (i + 1) e he

theorem verify_events_host :
    ∀ (rem i : Nat), ∀ e ∈ verify_events rem i, e.isHostAccess = true := by
  intro rem
  induction rem with
  | zero => intro i e he; simp [verify_events] at he
  | succ rem ih =>
    intro i e he
    simp only [verify_events, List.mem_cons] at he
    rcases he with rfl | rfl | rfl | he
    · rfl
    · rfl
    · rfl
    · exact ih (i + 1) e he

theorem svm_discipline_breaches :
    (⟨true, true⟩ : SvmState).exec [Event.kernel] = none ∧
    (⟨true, false⟩ : SvmState).exec [Event.kernel] = none ∧
    (⟨false, true⟩ : SvmState).exec [Event.hostRead Buf.x 0] = none ∧
    (⟨true, false⟩ : SvmState).exec [Event.hostWrite Buf.y_gpu 0] = none :=
  ⟨rfl, rfl, rfl, rfl⟩

/-- C8. For the coarse-grained SVM strategy, with `x` and `y_gpu` each mapped
or unmapped: `_alloc` leaves both mapped whatever the state before; along
`run` (`init`, `compute_in_cpu`, `compute_in_gpu`, `verify`), for every `N`, no
host read or write touches an unmapped buffer and the kernel is enqueued with
both buffers unmapped; both are mapped again when `_compute_in_gpu` returns. -/
theorem svm_run_respects_mapping (N : Nat) (s0 : SvmState) :
    s0.exec SVM_alloc_events = some ⟨true, true⟩ ∧
    s0.exec (SVM_init_events N) = some ⟨true, true⟩ ∧
    (⟨true, true⟩ : SvmState).exec (compute_in_cpu_events N 0) = some ⟨true, true⟩ ∧
    (⟨true, true⟩ : SvmState).exec [Event.unmapSVM Buf.x, Event.unmapSVM Buf.y_gpu]
      = some ⟨false, false⟩ ∧
    (⟨false, false⟩ : SvmState).exec [Event.kernel] = some ⟨false, false⟩ ∧
    (⟨true, true⟩ : SvmState).exec SVM_compute_in_gpu_events = some ⟨true, true⟩ ∧
    (⟨true, true⟩ : SvmState).exec (verify_events N 0) = some ⟨true, true⟩ ∧
    s0.exec (SVM_run_events N) = some ⟨true, true⟩ := by
  have halloc : s0.exec SVM_alloc_events = some ⟨true, true⟩ := by
    cases s0 with
    | mk a b => cases a <;> cases b <;> rfl
  have hcopies : (⟨true, true⟩ : SvmState).exec
      (copy_n_events Buf.x N 0 ++ copy_n_events Buf.y N 0 ++ copy_n_events Buf.y_gpu N 0)
      = some ⟨true, true⟩ := by
    apply exec_host_accesses
    intro e he
    simp only [List.mem_append] at he
    rcases he with (he | he) | he
    · exact copy_n_events_host Buf.x N 0 e he
    · exact copy_n_events_host Buf.y N 0 e he
    · exact copy_n_events_host Buf.y_gpu N 0 e he
  have hinit : s0.exec (SVM_init_events N) = some ⟨true, true⟩ := by
    unfold SVM_init_events
    rw [List.append_assoc, List.append_assoc, exec_append, halloc]
    simpa [List.append_assoc] using hcopies
  have hcpu := exec_host_accesses (compute_in_cpu_events N 0) (compute_in_cpu_events_host N 0)
  have hgpu : (⟨true, true⟩ : SvmState).exec SVM_compute_in_gpu_events
      = some ⟨true, true⟩ := rfl
  have hver := exec_host_accesses (verify_events N 0) (verify_events_host N 0)
  refine ⟨halloc, hinit, hcpu, rfl, rfl, hgpu, hver, ?_⟩
  unfold SVM_run_events
  rw [exec_append, exec_append, exec_append, hinit]
  simp only [hcpu, hgpu, hver]

end SvmLemmas

end Saxpy

